import Mathlib

/-!
Verification development for the ELM (NREL/elm) concurrent service-dispatch
framework and its graph-based decision procedure.

The repository ships the architecture documents
(`elm/ords/ARCHITECTURE.md`, `docs/source/dev/ords_architecture.rst`), the
worked examples (`examples/web_scraping_pipeline/README.rst`,
`examples/web_information_retrieval/example_search_retrieval_wiki.ipynb`)
and the design specification, but the Python modules implementing the
dispatch framework (`elm/ords/services/*.py`, `elm/tree.py`,
`elm/ords/extraction/tree.py`) are not part of the source snapshot.  The
components below are therefore modelled from the specification's contracts
(marked `Modelled from the spec:`), except where a snippet appears verbatim
in the shipped documentation (e.g. `parse_response_to_str`), which is
embedded directly.

The file is organised as definitions first (the embedded data model and
operations), then the supporting lemmas and the claim theorems.
-/

namespace Elm

/-! ### Rate Gate

Modelled from the spec: §3 "RateGate state" and §4.2 "Rate Gate" contract.
State is `{ window_duration, window_limit, usage_log }` where `usage_log`
is an ordered sequence of `(timestamp, cost)` pairs (most recent first). -/

/-- Modelled from the spec: the Rate Gate's state — a rolling-window usage
tracker with `window_duration`, `window_limit` and a `usage_log` of
`(timestamp, cost)` pairs (missing source: `elm/ords/services/usage.py`). -/
structure RateGate where
  window_duration : Nat
  window_limit : Nat
  usage_log : List (Nat × Nat)
deriving Repr, DecidableEq

/-- A log entry with timestamp `ts` lies inside the trailing window of
duration `W` ending at time `now`. -/
def inWindow (W now ts : Nat) : Bool :=
  decide (now < ts + W ∧ ts ≤ now)

/-- Modelled from the spec: `current_usage()` — the running total of cost
over the trailing window at time `now`. -/
def RateGate.current_usage (g : RateGate) (now : Nat) : Nat :=
  ((g.usage_log.filter (fun e => inWindow g.window_duration now e.1)).map
    (fun e => e.2)).sum

/-- Modelled from the spec: the Rate Gate admission query (the spec calls
it `can_admit(cost) -> bool`) — true iff adding `cost` to the
trailing-window usage would not exceed `window_limit`. -/
def RateGate.canAdmit (g : RateGate) (now cost : Nat) : Bool :=
  g.current_usage now + cost ≤ g.window_limit

/-- Modelled from the spec: `record(cost)` — commits usage at the current
time once a unit of work is actually admitted. -/
def RateGate.record (g : RateGate) (now cost : Nat) : RateGate :=
  { g with usage_log := (now, cost) :: g.usage_log }

/-- A usage log is admissible when it was produced by the single admission
loop: each entry was recorded at a time no earlier than every entry already
present, and only after `canAdmit` approved it against the log at that
moment.  Logs are most-recent-first. -/
inductive AdmissibleLog (W L : Nat) : List (Nat × Nat) → Prop
  | nil : AdmissibleLog W L []
  | cons (now cost : Nat) (log : List (Nat × Nat))
      (hmono : ∀ e ∈ log, e.1 ≤ now)
      (hadm : RateGate.canAdmit ⟨W, L, log⟩ now cost = true)
      (htail : AdmissibleLog W L log) :
      AdmissibleLog W L ((now, cost) :: log)

/-! ### Work Queue and Service admission loop

Modelled from the spec: §3 "WorkItem", §4.1 "Work Queue", §4.3 "Service —
admission loop" and §5 "Concurrency & Resource Model" (missing source:
`elm/ords/services/base.py`, `elm/ords/services/queues.py`,
`elm/ords/services/provider.py`). -/

/-- Modelled from the spec: a WorkItem — an opaque payload identified by
`id`, with a numeric `cost`. -/
structure WorkItem where
  id : Nat
  cost : Nat
deriving Repr, DecidableEq

/-- Modelled from the spec: the terminal value of a result slot — success,
a terminal `FailedCallError`, or a `CancellationError` (the spec requires
the last two to be distinguishable). -/
inductive CallResult
  | success (value : String)
  | failedCall
  | cancelled
deriving Repr, DecidableEq

/-- Modelled from the spec: the observable state of one Service — its Rate
Gate, its FIFO work queue, the ids dispatched to the backend in dispatch
order, the single-assignment result slots, and the ids accepted for
enqueueing in arrival order. -/
structure ServiceSt where
  gate : RateGate
  queue : List WorkItem
  dispatched : List Nat
  results : Nat → Option CallResult
  enqueued : List Nat

/-- Events driving one Service: a caller enqueues a work item, the single
admission loop polls the gate at a tick, or a caller cancels a pending
item. -/
inductive Event
  | enqueue (id cost : Nat)
  | tick (now : Nat)
  | cancel (id : Nat)
deriving Repr, DecidableEq

/-- Modelled from the spec: one step of the Service.  `enqueue` appends in
arrival order (fresh ids only, matching the single-assignment result-slot
invariant); on a `tick` the admission loop checks the head item against
the Rate Gate and, once admissible, dequeues it, records its cost and
dispatches it; `cancel` removes a still-queued item and resolves its
result slot to a cancellation error. -/
def ServiceSt.step (s : ServiceSt) (e : Event) : ServiceSt :=
  match e with
  | .enqueue id cost =>
      if id ∈ s.enqueued then s
      else { s with queue := s.queue ++ [⟨id, cost⟩],
                    enqueued := s.enqueued ++ [id] }
  | .tick now =>
      match s.queue with
      | [] => s
      | item :: rest =>
          if s.gate.canAdmit now item.cost then
            { s with queue := rest,
                     gate := s.gate.record now item.cost,
                     dispatched := s.dispatched ++ [item.id] }
          else s
  | .cancel id =>
      if id ∈ s.queue.map WorkItem.id then
        { s with queue := s.queue.filter (fun it => it.id != id),
                 results := fun j =>
                   if j = id then some CallResult.cancelled else s.results j }
      else s

/-- An idle Service as set up on Registry entry: empty queue, empty usage
log, all result slots unresolved. -/
def ServiceSt.init (W L : Nat) : ServiceSt :=
  { gate := ⟨W, L, []⟩, queue := [], dispatched := [],
    results := fun _ => none, enqueued := [] }

/-- Run the Service over a sequence of events. -/
def ServiceSt.run (s : ServiceSt) (es : List Event) : ServiceSt :=
  es.foldl ServiceSt.step s

/-- The invariants of a Service reachable from the idle state: dispatches
followed by the pending queue form a subsequence of the arrival order,
accepted ids are distinct, resolved slots belong to accepted ids, and a
cancelled id is neither dispatched nor still queued. -/
structure ServiceInv (s : ServiceSt) : Prop where
  order : (s.dispatched ++ s.queue.map WorkItem.id).Sublist s.enqueued
  nodup : s.enqueued.Nodup
  resultsDom : ∀ id, s.results id ≠ none → id ∈ s.enqueued
  cancelledQuiet : ∀ id, s.results id = some CallResult.cancelled →
      id ∉ s.dispatched ∧ id ∉ s.queue.map WorkItem.id

/-! ### Service lifecycle and the public `call` operation

Modelled from the spec: §3 "Service" lifecycle (`IDLE → STARTING → RUNNING
→ DRAINING → STOPPED`) and §4.3 "Public operation `call`": calling `call`
while the Service is not RUNNING is a usage error, reported immediately
and never queued (missing source: `elm/ords/services/base.py`,
`elm/ords/services/provider.py`). -/

/-- Modelled from the spec: the Service lifecycle states. -/
inductive ServiceLifecycle
  | idle
  | starting
  | running
  | draining
  | stopped
deriving Repr, DecidableEq

/-- Modelled from the spec: the usage-error taxonomy entry raised
synchronously when `call` is invoked on a Service that is not running. -/
inductive UsageError
  | notRunning
deriving Repr, DecidableEq

/-- A Service: its lifecycle state together with its queue/gate state. -/
structure Service where
  lifecycle : ServiceLifecycle
  st : ServiceSt

/-- Modelled from the spec: `call(payload, cost)` — constructs a WorkItem
and enqueues it, returning a handle; while the Service is not RUNNING the
call fails immediately with a usage error and nothing is enqueued. -/
def Service.call (s : Service) (id cost : Nat) :
    Service × Except UsageError Nat :=
  if s.lifecycle = ServiceLifecycle.running then
    ({ s with st := s.st.step (Event.enqueue id cost) }, Except.ok id)
  else
    (s, Except.error UsageError.notRunning)

/-! ### Retry semantics of the admission loop

Modelled from the spec: §4.3 "Failure semantics at this layer" and §7
"TransientBackendError" (missing source: `elm/ords/services/openai.py`,
automatic resubmission upon API failure).  The backend callable is
modelled as a function from the attempt index to its outcome. -/

/-- Modelled from the spec: what one backend invocation can produce — a
successful value, a transient condition (throttling / transient worker
exception), or a non-transient failure. -/
inductive BackendOutcome
  | success (value : String)
  | transient
  | fatal
deriving Repr, DecidableEq

/-- Modelled from the spec: the retry loop around one WorkItem.  With a
budget of remaining attempts it invokes the backend; success and
non-transient failures resolve the slot immediately, a transient condition
consumes one attempt and retries (after a backoff delay, not modelled),
and an exhausted budget writes the terminal `FailedCallError`.  Returns
the number of backend invocations paired with the slot value. -/
def retryLoop (backend : Nat → BackendOutcome) : Nat → Nat × CallResult
  | 0 => (0, CallResult.failedCall)
  | budget + 1 =>
      match backend 0 with
      | BackendOutcome.success v => (1, CallResult.success v)
      | BackendOutcome.fatal => (1, CallResult.failedCall)
      | BackendOutcome.transient =>
          let r := retryLoop (fun i => backend (i + 1)) budget
          (r.1 + 1, r.2)

/-- Modelled from the spec: dispatching one WorkItem with the configured
`retry_count` total attempt budget. -/
def callWithRetries (backend : Nat → BackendOutcome) (retryCount : Nat) :
    Nat × CallResult :=
  retryLoop backend retryCount

/-- The backend of the spec's retry scenario: fails transiently on the
first two attempts, succeeds on the third. -/
def twoTransientsBackend : Nat → BackendOutcome :=
  fun k => if k < 2 then BackendOutcome.transient else BackendOutcome.success "ok"

/-! ### Service Registry scoped lifecycle

Modelled from the spec: §4.5 "Service Registry (scoped lifecycle)" and §7
"ShutdownError" (missing source: `elm/ords/services/provider.py`,
`RunningAsyncServices`). -/

/-- Modelled from the spec: a service as the Registry sees it — whether
its start routine and its stop routine complete without raising. -/
structure LifecycleSvc where
  startOk : Bool
  stopOk : Bool
deriving Repr, DecidableEq

/-- Modelled from the spec: `enter(services)` — starts each service in
order; a start failure aborts the entry, leaving the earlier services
started.  Returns the started services in start order and the first start
failure, if any. -/
def startAll (svcs : Nat → LifecycleSvc) : List Nat → List Nat × Option Nat
  | [] => ([], none)
  | i :: rest =>
      if (svcs i).startOk then
        let r := startAll svcs rest
        (i :: r.1, r.2)
      else ([], some i)

/-- Modelled from the spec: the body of `exit()` — walks the given list
(already reversed to teardown order), attempting to stop every service
even after a failure, and keeps the first exception encountered. -/
def stopEach (svcs : Nat → LifecycleSvc) : List Nat → List Nat × Option Nat
  | [] => ([], none)
  | i :: rest =>
      let r := stopEach svcs rest
      (i :: r.1, if (svcs i).stopOk then r.2 else some i)

/-- The observable trace of one Registry scope. -/
structure ScopeTrace where
  started : List Nat
  startErr : Option Nat
  stopAttempts : List Nat
  stopErr : Option Nat
deriving Repr, DecidableEq

/-- Modelled from the spec: one full Registry scope — `enter` starts the
services in order, then (whether or not the protected block raised, and
whether or not a later service failed to start) `exit` stops every
started service in reverse start order. -/
def runScope (svcs : Nat → LifecycleSvc) (names : List Nat)
    (blockRaised : Bool) : ScopeTrace :=
  let s := startAll svcs names
  let e := stopEach svcs s.1.reverse
  { started := s.1, startErr := s.2, stopAttempts := e.1, stopErr := e.2 }

/-! ### Decision Procedure Engine

Modelled from the spec: §3 "DecisionGraph" / "TraversalState" and §4.6
"Decision Procedure Engine" (missing source: `elm/tree.py`,
`elm/ords/extraction/tree.py`; the notebook
`example_search_retrieval_wiki.ipynb` records the engine's observable
behaviour: a no-match at a non-terminal node raises an error naming the
node, wrapped for the caller with the literal last LLM message, and caught
by the notebook as a `RuntimeError`). -/

/-- Boolean prefix test on the underlying character lists (the notebook's
edge conditions use `str.startswith`). -/
def strStartsWith (s pre : String) : Bool :=
  pre.data.isPrefixOf s.data

/-- An outgoing edge of the decision graph: a target node and an optional
condition on the response; an absent condition always matches (as in the
notebook's unconditional `G.add_edge("name", "final")`). -/
structure GraphEdge where
  target : String
  condition : Option (String → Bool)

/-- Modelled from the spec: a DecisionGraph — node prompts and, per node,
the ordered list of outgoing edges.  A node with no outgoing edges is
terminal. -/
structure DecisionGraph where
  prompts : String → Option String
  edges : String → List GraphEdge

/-- Errors a traversal run can produce: the navigation error carrying the
current node and the literal response that failed to match, or fuel
exhaustion (an artifact of embedding the source's while-loop; never hit on
an acyclic graph given enough fuel). -/
inductive TreeError
  | navError (node : String) (response : String)
  | outOfFuel (node : String)
deriving Repr, DecidableEq

/-- Modelled from the spec: take the first edge, in declared order, whose
condition holds of the response. -/
def firstMatch (edges : List GraphEdge) (resp : String) : Option String :=
  match edges with
  | [] => none
  | e :: rest =>
      match e.condition with
      | none => some e.target
      | some c => if c resp then some e.target else firstMatch rest resp

/-- Modelled from the spec: the traversal loop.  At each node it obtains a
response from the bound caller, appends the exchange to the traversal
state, and either stops (terminal node: returns visited nodes and
accumulated state), follows the first matching edge, or fails with the
navigation error carrying the current node and the literal response.  The
loop is iterative (as in the source's `while True`), so an error produced
at the current node is the run's result. -/
def runFrom (g : DecisionGraph) (responder : String → String) :
    Nat → String → List String → List (String × String) →
    Except TreeError (List String × List (String × String))
  | 0, node, _, _ => Except.error (TreeError.outOfFuel node)
  | fuel + 1, node, visited, hist =>
      let resp := responder node
      let hist' := hist ++ [(node, resp)]
      match g.edges node with
      | [] => Except.ok (visited ++ [node], hist')
      | e :: rest =>
          match firstMatch (e :: rest) resp with
          | some target => runFrom g responder fuel target (visited ++ [node]) hist'
          | none => Except.error (TreeError.navError node resp)

/-- A whole traversal run: fresh, empty traversal state, starting at the
designated start node. -/
def runTraversal (g : DecisionGraph) (responder : String → String)
    (fuel : Nat) (start : String) :
    Except TreeError (List String × List (String × String)) :=
  runFrom g responder fuel start [] []

/-- The spec's determinism scenario graph: start node `init` with a single
edge to `leaf` whose condition is that the response starts with `Yes`;
`leaf` is terminal. -/
def specScenarioGraph : DecisionGraph where
  prompts := fun n =>
    if n = "init" then some "init prompt"
    else if n = "leaf" then some "leaf prompt"
    else none
  edges := fun n =>
    if n = "init" then [⟨"leaf", some (fun r => strStartsWith r "Yes")⟩]
    else []

/-- The fixed responses of the spec's determinism scenario: `init` answers
"Yes, confirmed.", the terminal node answers "Done.". -/
def yesResponder : String → String :=
  fun n => if n = "init" then "Yes, confirmed." else "Done."

/-! ### Interleaved runs over one shared graph definition

One in-progress traversal, stepped one node visit at a time, used to show
that concurrent runs over the same read-only graph cannot interleave their
traversal states. -/

/-- One traversal run in progress: current node, visited nodes, its own
TraversalState, and the result once finished. -/
structure RunState where
  node : String
  visited : List String
  hist : List (String × String)
  finished : Option (Except TreeError (List String × List (String × String)))

/-- One node visit of an in-progress run (a finished run is left as is).
Reads the graph only; writes only this run's own state. -/
def stepRun (g : DecisionGraph) (responder : String → String)
    (rs : RunState) : RunState :=
  match rs.finished with
  | some _ => rs
  | none =>
      let resp := responder rs.node
      let hist' := rs.hist ++ [(rs.node, resp)]
      match g.edges rs.node with
      | [] =>
          { rs with visited := rs.visited ++ [rs.node], hist := hist',
                    finished := some (Except.ok
                      (rs.visited ++ [rs.node], hist')) }
      | e :: rest =>
          match firstMatch (e :: rest) resp with
          | some target =>
              { rs with node := target, visited := rs.visited ++ [rs.node],
                        hist := hist' }
          | none =>
              { rs with finished := some (Except.error
                  (TreeError.navError rs.node resp)) }

/-- Two runs `a` and `b` over the same graph definition, interleaved under
an arbitrary schedule (`true` steps run `a`, `false` steps run `b`). -/
def runPair (g : DecisionGraph) (rA rB : String → String) :
    RunState × RunState → List Bool → RunState × RunState
  | w, [] => w
  | w, true :: sched => runPair g rA rB (stepRun g rA w.1, w.2) sched
  | w, false :: sched => runPair g rA rB (w.1, stepRun g rB w.2) sched

/-- Iterate a run solo. -/
def iterRun (g : DecisionGraph) (responder : String → String) :
    Nat → RunState → RunState
  | 0, rs => rs
  | n + 1, rs => iterRun g responder n (stepRun g responder rs)

/-! ### OpenAI response parsing

Embedded from the source: `examples/web_scraping_pipeline/README.rst`
(`parse_response_to_str`, repeated in `elm/ords/ARCHITECTURE.md` and
`docs/source/dev/ords_architecture.rst`):

```
def parse_response_to_str(response):
    if response is None:
        return ""
    return response.choices[0].message.content
```
-/

/-- The message carried by one chat-completion choice. -/
structure ChatMessage where
  content : String
deriving Repr, DecidableEq

/-- One chat-completion choice. -/
structure ChatChoice where
  message : ChatMessage
deriving Repr, DecidableEq

/-- A chat-completion response: its list of choices. -/
structure ChatResponse where
  choices : List ChatChoice
deriving Repr, DecidableEq

/-- The Python runtime error raised by `response.choices[0]` when the
choice list is empty. -/
inductive PyError
  | indexError
deriving Repr, DecidableEq

/-- Embedded from `examples/web_scraping_pipeline/README.rst`: `None`
becomes the empty string; otherwise the first choice's message content is
returned (`choices[0]` raises `IndexError` on an empty list, modelled as
`Except.error`). -/
def parse_response_to_str : Option ChatResponse → Except PyError String
  | none => Except.ok ""
  | some resp =>
      match resp.choices with
      | [] => Except.error PyError.indexError
      | c :: _ => Except.ok c.message.content

end Elm

namespace Elm

/-! ### Supporting lemmas -/

/-- Summing a filtered list is monotone in the filter, pointwise on the
list's members. -/
theorem sum_filter_le_of_imp (l : List (Nat × Nat)) (p q : Nat × Nat → Bool)
    (h : ∀ e ∈ l, p e = true → q e = true) :
    ((l.filter p).map (fun e => e.2)).sum ≤
      ((l.filter q).map (fun e => e.2)).sum := by
  induction l with
  | nil => simp
  | cons a l ih =>
    have ih' := ih (fun e he => h e (List.mem_cons_of_mem a he))
    by_cases hp : p a = true
    · have hq : q a = true := h a (List.mem_cons_self a l) hp
      simp [List.filter_cons, hp, hq]
      omega
    · simp only [List.filter_cons, Bool.not_eq_true] at *
      simp [hp]
      rcases hq : q a with _ | _
      · simpa [hq] using ih'
      · simp [hq]
        omega

/-- Any entry of an admissible tail that is inside the window ending at a
later time `t ≥ now` is also inside the window ending at `now`, given that
all its timestamps are `≤ now`. -/
theorem inWindow_mono (W now t ts : Nat) (hts : ts ≤ now) (hnow : now ≤ t)
    (h : inWindow W t ts = true) : inWindow W now ts = true := by
  simp only [inWindow, decide_eq_true_eq] at *
  omega

/-- Key invariant: an admissible log never shows more than `window_limit`
of usage in any trailing window. -/
theorem admissible_usage_bounded (W L : Nat) (log : List (Nat × Nat))
    (h : AdmissibleLog W L log) (t : Nat) :
    RateGate.current_usage ⟨W, L, log⟩ t ≤ L := by
  induction h with
  | nil => simp [RateGate.current_usage]
  | cons now cost log hmono hadm htail ih =>
    by_cases hin : inWindow W t now = true
    · -- the newest entry is inside the window ending at `t`;
      -- every other in-window entry was already counted by `canAdmit`
      have hnow_le_t : now ≤ t := by
        simp only [inWindow, decide_eq_true_eq] at hin
        exact hin.2
      have hsub : ((log.filter (fun e => inWindow W t e.1)).map
            (fun e => e.2)).sum ≤
          ((log.filter (fun e => inWindow W now e.1)).map
            (fun e => e.2)).sum := by
        refine sum_filter_le_of_imp log _ _ ?_
        intro e he hp
        exact inWindow_mono W now t e.1 (hmono e he) hnow_le_t hp
      have hadm' : RateGate.current_usage ⟨W, L, log⟩ now + cost ≤ L := by
        simpa [RateGate.canAdmit, decide_eq_true_eq] using hadm
      simp only [RateGate.current_usage, List.filter_cons, hin, if_true,
        List.map_cons, List.sum_cons]
      simp only [RateGate.current_usage] at hadm' hsub
      omega
    · -- the newest entry is outside the window; reduce to the tail
      simp only [Bool.not_eq_true] at hin
      simp only [RateGate.current_usage, List.filter_cons, hin]
      simpa [RateGate.current_usage] using ih

theorem serviceInv_init (W L : Nat) : ServiceInv (ServiceSt.init W L) := by
  refine ⟨by simp [ServiceSt.init], by simp [ServiceSt.init], ?_, ?_⟩ <;>
    intro id h <;> simp [ServiceSt.init] at h

theorem serviceInv_step {s : ServiceSt} (h : ServiceInv s) (e : Event) :
    ServiceInv (s.step e) := by
  cases e with
  | enqueue id cost =>
    by_cases hid : id ∈ s.enqueued
    · simpa [ServiceSt.step, hid] using h
    · simp only [ServiceSt.step, if_neg hid]
      refine ⟨?_, ?_, ?_, ?_⟩
      · simp only [List.map_append, List.map_cons, List.map_nil]
        rw [← List.append_assoc]
        exact h.order.append (List.Sublist.refl [id])
      · refine h.nodup.append (by simp) ?_
        intro a ha hb
        rw [List.mem_singleton] at hb
        subst hb
        exact hid ha
      · intro j hj
        exact List.mem_append_left _ (h.resultsDom j hj)
      · intro j hj
        have hj' : s.results j = some CallResult.cancelled := hj
        have hmemq := (h.cancelledQuiet j hj').2
        have hmemd := (h.cancelledQuiet j hj').1
        have hje : j ∈ s.enqueued := h.resultsDom j (by simp [hj'])
        have hjid : j ≠ id := fun hji => hid (hji ▸ hje)
        refine ⟨hmemd, ?_⟩
        simp only [List.map_append, List.map_cons, List.map_nil,
          List.mem_append, List.mem_singleton]
        rintro (hc | hc)
        · exact hmemq hc
        · exact hjid hc
  | tick now =>
    rcases hql : s.queue with _ | ⟨item, rest⟩
    · simpa [ServiceSt.step, hql] using h
    · simp only [ServiceSt.step, hql]
      by_cases hadm : s.gate.canAdmit now item.cost = true
      · simp only [hadm, if_true]
        have horder := h.order
        rw [hql] at horder
        refine ⟨?_, h.nodup, h.resultsDom, ?_⟩
        · simpa [List.append_assoc] using horder
        · intro j hj
          have hq := h.cancelledQuiet j hj
          rw [hql] at hq
          simp only [List.map_cons, List.mem_cons, not_or] at hq
          refine ⟨?_, hq.2.2⟩
          simp only [List.mem_append, List.mem_singleton, not_or]
          exact ⟨hq.1, hq.2.1⟩
      · simp only [Bool.not_eq_true] at hadm
        simp only [hadm, Bool.false_eq_true, if_false]
        exact h
  | cancel id =>
    by_cases hid : id ∈ s.queue.map WorkItem.id
    · simp only [ServiceSt.step, if_pos hid]
      have hdisp_nodup : (s.dispatched ++ s.queue.map WorkItem.id).Nodup :=
        h.order.nodup h.nodup
      have hdisjoint := (List.nodup_append.mp hdisp_nodup).2.2
      refine ⟨?_, h.nodup, ?_, ?_⟩
      · refine List.Sublist.trans ?_ h.order
        exact (List.Sublist.refl s.dispatched).append
          (((s.queue.filter_sublist).map WorkItem.id))
      · intro j hj
        by_cases hji : j = id
        · subst hji
          exact h.order.subset (List.mem_append_right _ hid)
        · simp only [hji, if_false] at hj
          exact h.resultsDom j hj
      · intro j hj
        by_cases hji : j = id
        · subst hji
          refine ⟨fun hd => hdisjoint hd hid, ?_⟩
          simp only [List.mem_map]
          rintro ⟨it, hit, rfl⟩
          have := List.of_mem_filter hit
          simp at this
        · simp only [hji, if_false] at hj
          have hq := h.cancelledQuiet j hj
          refine ⟨hq.1, ?_⟩
          intro hmem
          simp only [List.mem_map] at hmem
          rcases hmem with ⟨it, hit, rfl⟩
          exact hq.2 (List.mem_map_of_mem WorkItem.id (List.mem_of_mem_filter hit))
    · simpa [ServiceSt.step, hid] using h

theorem serviceInv_run (es : List Event) {s : ServiceSt} (h : ServiceInv s) :
    ServiceInv (s.run es) := by
  induction es generalizing s with
  | nil => exact h
  | cons e es ih => exact ih (serviceInv_step h e)

/-- Of two distinct members of a list, one occurs strictly before the
other: `[a, b]` or `[b, a]` is a sublist. -/
theorem pair_sublist_total {α : Type} (a b : α) (hne : a ≠ b) :
    ∀ l : List α, a ∈ l → b ∈ l →
      [a, b].Sublist l ∨ [b, a].Sublist l := by
  intro l
  induction l with
  | nil => intro ha; cases ha
  | cons x xs ih =>
    intro ha hb
    by_cases hxa : x = a
    · subst hxa
      have hb' : b ∈ xs := by
        rcases List.mem_cons.mp hb with hb' | hb'
        · exact absurd hb'.symm hne
        · exact hb'
      exact Or.inl (List.Sublist.cons₂ x (List.singleton_sublist.mpr hb'))
    · by_cases hxb : x = b
      · subst hxb
        have ha' : a ∈ xs := by
          rcases List.mem_cons.mp ha with ha' | ha'
          · exact absurd ha'.symm hxa
          · exact ha'
        exact Or.inr (List.Sublist.cons₂ x (List.singleton_sublist.mpr ha'))
      · have ha' : a ∈ xs := by
          rcases List.mem_cons.mp ha with h' | h'
          · exact absurd h'.symm hxa
          · exact h'
        have hb' : b ∈ xs := by
          rcases List.mem_cons.mp hb with h' | h'
          · exact absurd h'.symm hxb
          · exact h'
        rcases ih ha' hb' with h' | h'
        · exact Or.inl (h'.cons x)
        · exact Or.inr (h'.cons x)

/-- In a duplicate-free list, two distinct elements occur in exactly one
relative order. -/
theorem pair_sublist_asymm {α : Type} (a b : α) (hne : a ≠ b) :
    ∀ l : List α, l.Nodup → [a, b].Sublist l → [b, a].Sublist l → False := by
  intro l
  induction l with
  | nil =>
    intro _ h1 _
    simp at h1
  | cons x xs ih =>
    intro hnd h1 h2
    have hx : x ∉ xs := (List.nodup_cons.mp hnd).1
    have hnd' : xs.Nodup := (List.nodup_cons.mp hnd).2
    cases h1 with
    | cons _ h1' =>
      cases h2 with
      | cons _ h2' => exact ih hnd' h1' h2'
      | cons₂ _ h2' =>
        -- here x = b and [a, b] is still a sublist of the tail
        exact hx (h1'.subset (by simp))
    | cons₂ _ h1' =>
      cases h2 with
      | cons _ h2' =>
        -- here x = a and [b, a] is still a sublist of the tail
        exact hx (h2'.subset (by simp))
      | cons₂ _ h2' => exact hne rfl

/-- Once a result slot has resolved to a cancellation error, no later event
rewrites it (result slots are single-assignment). -/
theorem cancelled_persists {s : ServiceSt} (es : List Event) (id : Nat)
    (h : s.results id = some CallResult.cancelled) :
    (s.run es).results id = some CallResult.cancelled := by
  induction es generalizing s with
  | nil => exact h
  | cons e es ih =>
    refine ih ?_
    cases e with
    | enqueue i c =>
      show (s.step (Event.enqueue i c)).results id = _
      simp only [ServiceSt.step]
      split
      · exact h
      · exact h
    | tick now =>
      show (s.step (Event.tick now)).results id = _
      rcases hql : s.queue with _ | ⟨item, rest⟩
      · simpa [ServiceSt.step, hql] using h
      · simp only [ServiceSt.step, hql]
        split
        · exact h
        · exact h
    | cancel i =>
      show (s.step (Event.cancel i)).results id = _
      simp only [ServiceSt.step]
      split
      · by_cases hji : id = i
        · simp [hji]
        · simpa [hji] using h
      · exact h

theorem retryLoop_all_transient (R : Nat) :
    ∀ backend : Nat → BackendOutcome, (∀ k, backend k = BackendOutcome.transient) →
      retryLoop backend R = (R, CallResult.failedCall) := by
  induction R with
  | zero => intro backend _; rfl
  | succ n ih =>
    intro backend h
    simp only [retryLoop, h 0]
    rw [ih (fun i => backend (i + 1)) (fun k => h (k + 1))]

theorem retryLoop_fatal_at (k : Nat) :
    ∀ (backend : Nat → BackendOutcome) (R : Nat), k < R →
      (∀ i, i < k → backend i = BackendOutcome.transient) →
      backend k = BackendOutcome.fatal →
      retryLoop backend R = (k + 1, CallResult.failedCall) := by
  induction k with
  | zero =>
    intro backend R hR _ hk
    rcases R with _ | n
    · omega
    · simp [retryLoop, hk]
  | succ m ih =>
    intro backend R hR htr hk
    rcases R with _ | n
    · omega
    · have h0 : backend 0 = BackendOutcome.transient := htr 0 (by omega)
      simp only [retryLoop, h0]
      rw [ih (fun i => backend (i + 1)) n (by omega)
        (fun i hi => htr (i + 1) (by omega)) hk]

theorem retryLoop_success_at (k : Nat) :
    ∀ (backend : Nat → BackendOutcome) (R : Nat) (v : String), k < R →
      (∀ i, i < k → backend i = BackendOutcome.transient) →
      backend k = BackendOutcome.success v →
      retryLoop backend R = (k + 1, CallResult.success v) := by
  induction k with
  | zero =>
    intro backend R v hR _ hk
    rcases R with _ | n
    · omega
    · simp [retryLoop, hk]
  | succ m ih =>
    intro backend R v hR htr hk
    rcases R with _ | n
    · omega
    · have h0 : backend 0 = BackendOutcome.transient := htr 0 (by omega)
      simp only [retryLoop, h0]
      rw [ih (fun i => backend (i + 1)) n v (by omega)
        (fun i hi => htr (i + 1) (by omega)) hk]

theorem stopEach_attempts_eq (svcs : Nat → LifecycleSvc) (l : List Nat) :
    (stopEach svcs l).1 = l := by
  induction l with
  | nil => rfl
  | cons i rest ih => simp [stopEach, ih]

theorem stopEach_err_eq_findFirst (svcs : Nat → LifecycleSvc) (l : List Nat) :
    (stopEach svcs l).2 = l.find? (fun i => !(svcs i).stopOk) := by
  induction l with
  | nil => rfl
  | cons i rest ih =>
    rcases hstop : (svcs i).stopOk with _ | _ <;>
      simp [stopEach, List.find?, hstop, ih]

theorem startAll_sublist (svcs : Nat → LifecycleSvc) (names : List Nat) :
    (startAll svcs names).1.Sublist names := by
  induction names with
  | nil => simp [startAll]
  | cons i rest ih =>
    rcases hst : (svcs i).startOk with _ | _
    · simp [startAll, hst]
    · simpa [startAll, hst] using ih.cons₂ i

end Elm

/-! ## Claim theorems -/

/-- C1: for every sequence of calls admitted by a running rate-limited
Service — the Rate Gate admits a cost only when `canAdmit` is true and
records it upon admission — the sum of admitted costs inside any trailing
`window_duration` interval never exceeds `window_limit`. -/
theorem C1_trailing_window_usage_bounded (W L : Nat) (log : List (Nat × Nat))
    (h : Elm.AdmissibleLog W L log) :
    ∀ t, Elm.RateGate.current_usage ⟨W, L, log⟩ t ≤ L :=
  fun t => Elm.admissible_usage_bounded W L log h t

/-- Witness for C1 at a concrete admissible log: window 10, limit 5,
entries recorded at times 12 and 3 with costs 2 and 3, evaluated at
time 12. -/
theorem C1_trailing_window_usage_bounded_witness :
    Elm.RateGate.current_usage ⟨10, 5, [(12, 2), (3, 3)]⟩ 12 ≤ 5 :=
  C1_trailing_window_usage_bounded 10 5 [(12, 2), (3, 3)]
    (Elm.AdmissibleLog.cons 12 2 [(3, 3)] (by decide) (by decide)
      (Elm.AdmissibleLog.cons 3 3 [] (by simp) (by decide)
        Elm.AdmissibleLog.nil)) 12

/-- C2: for every pair of work items enqueued to the same Service's queue,
if item `a` is enqueued strictly before item `b` and both are dispatched,
then `a` is dispatched strictly before `b`: the queue never reorders items
or applies priority.  (This holds with no admissibility side condition at
all, so in particular when both are admissible at the same rate-gate
check.) -/
theorem C2_fifo_dispatch_order (W L : Nat) (es : List Elm.Event) (a b : Nat)
    (henq : [a, b].Sublist ((Elm.ServiceSt.init W L).run es).enqueued)
    (ha : a ∈ ((Elm.ServiceSt.init W L).run es).dispatched)
    (hb : b ∈ ((Elm.ServiceSt.init W L).run es).dispatched) :
    [a, b].Sublist ((Elm.ServiceSt.init W L).run es).dispatched := by
  have hinv := Elm.serviceInv_run es (Elm.serviceInv_init W L)
  set s := (Elm.ServiceSt.init W L).run es with hs
  have hdisp : s.dispatched.Sublist s.enqueued :=
    (List.sublist_append_left _ _).trans hinv.order
  have hne : a ≠ b := by
    rintro rfl
    have : ([a, a] : List Nat).Nodup := henq.nodup hinv.nodup
    simp at this
  rcases Elm.pair_sublist_total a b hne s.dispatched ha hb with h | h
  · exact h
  · exact absurd (h.trans hdisp)
      (fun hba => Elm.pair_sublist_asymm a b hne s.enqueued hinv.nodup henq hba)

/-- Witness for C2: two items (ids 1 and 2, cost 1 each) enqueued in order
and dispatched over two admission-loop ticks under window 10, limit 10. -/
theorem C2_fifo_dispatch_order_witness :
    [1, 2].Sublist
      ((Elm.ServiceSt.init 10 10).run
        [Elm.Event.enqueue 1 1, Elm.Event.enqueue 2 1,
         Elm.Event.tick 0, Elm.Event.tick 0]).dispatched :=
  C2_fifo_dispatch_order 10 10
    [Elm.Event.enqueue 1 1, Elm.Event.enqueue 2 1,
     Elm.Event.tick 0, Elm.Event.tick 0] 1 2
    (by decide) (by decide) (by decide)

/-- C3: for every work item, the admission loop retries the same work item
on transient backend failures up to the `retry_count` attempt budget before
writing the terminal failure to its result slot; a non-transient failure is
written immediately after the failing attempt; and a backend that fails
transiently on attempts before `k` and succeeds (or fails fatally) at
attempt `k < retry_count` produces exactly `k + 1` backend invocations. -/
theorem C3_retry_semantics (backend : Nat → Elm.BackendOutcome) (R : Nat) :
    ((∀ k, backend k = Elm.BackendOutcome.transient) →
      Elm.callWithRetries backend R = (R, Elm.CallResult.failedCall)) ∧
    (∀ k, k < R → (∀ i, i < k → backend i = Elm.BackendOutcome.transient) →
      backend k = Elm.BackendOutcome.fatal →
      Elm.callWithRetries backend R = (k + 1, Elm.CallResult.failedCall)) ∧
    (∀ k v, k < R → (∀ i, i < k → backend i = Elm.BackendOutcome.transient) →
      backend k = Elm.BackendOutcome.success v →
      Elm.callWithRetries backend R = (k + 1, Elm.CallResult.success v)) := by
  refine ⟨?_, ?_, ?_⟩
  · intro h
    exact Elm.retryLoop_all_transient R backend h
  · intro k hk htr hfat
    exact Elm.retryLoop_fatal_at k backend R hk htr hfat
  · intro k v hk htr hsucc
    exact Elm.retryLoop_success_at k backend R v hk htr hsucc

/-- Witness for C3 — the spec's retry scenario: a backend that fails
transiently twice and succeeds on the third attempt, with `retry_count = 3`,
resolves the call successfully after exactly 3 backend invocations. -/
theorem C3_retry_semantics_witness :
    Elm.callWithRetries Elm.twoTransientsBackend 3 =
      (3, Elm.CallResult.success "ok") :=
  (C3_retry_semantics Elm.twoTransientsBackend 3).2.2 2 "ok" (by decide)
    (fun i hi => by
      have h2 : i < 2 := hi
      simp [Elm.twoTransientsBackend, h2])
    (by simp [Elm.twoTransientsBackend])

/-- C4: whenever a traversal reaches a non-terminal node (some outgoing
edge exists) where no edge condition matches the response, it fails with
the navigation error carrying exactly the current node's name and the
literal response that failed to match; the traversal loop is iterative, so
this error value is returned to the caller — never swallowed or replaced
by a default next node. -/
theorem C4_no_match_raises_navigation_error (g : Elm.DecisionGraph)
    (responder : String → String) (fuel : Nat) (node : String)
    (visited : List String) (hist : List (String × String))
    (hnonterm : g.edges node ≠ [])
    (hnomatch : Elm.firstMatch (g.edges node) (responder node) = none) :
    Elm.runFrom g responder (fuel + 1) node visited hist =
      Except.error (Elm.TreeError.navError node (responder node)) := by
  rcases hedges : g.edges node with _ | ⟨e, rest⟩
  · exact absurd hedges hnonterm
  · rw [hedges] at hnomatch
    simp [Elm.runFrom, hedges, hnomatch]

/-- Witness for C4: the scenario graph at node `init` with the fixed
response "No.", which matches no edge condition. -/
theorem C4_no_match_raises_navigation_error_witness :
    Elm.runFrom Elm.specScenarioGraph (fun _ => "No.") 1 "init" [] [] =
      Except.error (Elm.TreeError.navError "init" "No.") :=
  C4_no_match_raises_navigation_error Elm.specScenarioGraph
    (fun _ => "No.") 0 "init" [] []
    (by simp [Elm.specScenarioGraph]) rfl

/-- C5: on the spec's scenario graph (start node `init`, edge to terminal
`leaf` when the response starts with "Yes"), the traversal with fixed
response "Yes, confirmed." at `init` deterministically yields the node
sequence `[init, leaf]` and a final traversal state containing both
exchanges, while the fixed response "No." yields the navigation error
naming node `init` and response "No.". -/
theorem C5_scenario_deterministic :
    Elm.runTraversal Elm.specScenarioGraph Elm.yesResponder 2 "init" =
      Except.ok (["init", "leaf"],
        [("init", "Yes, confirmed."), ("leaf", "Done.")]) ∧
    Elm.runTraversal Elm.specScenarioGraph (fun _ => "No.") 2 "init" =
      Except.error (Elm.TreeError.navError "init" "No.") :=
  ⟨rfl, rfl⟩

/-- C6: invoking a Service's `call` while the Service is not RUNNING fails
immediately and synchronously with a usage error: the state (in particular
the queue) is unchanged, the payload is never enqueued, and the result is
the error itself (there is nothing pending to retry). -/
theorem C6_call_not_running_usage_error (s : Elm.Service) (id cost : Nat)
    (h : s.lifecycle ≠ Elm.ServiceLifecycle.running) :
    Elm.Service.call s id cost = (s, Except.error Elm.UsageError.notRunning) ∧
      ((Elm.Service.call s id cost).1).st.queue = s.st.queue := by
  refine ⟨?_, ?_⟩ <;> simp [Elm.Service.call, h]

/-- Witness for C6: calling an idle Service. -/
theorem C6_call_not_running_usage_error_witness :
    Elm.Service.call ⟨Elm.ServiceLifecycle.idle, Elm.ServiceSt.init 10 10⟩ 1 1 =
        (⟨Elm.ServiceLifecycle.idle, Elm.ServiceSt.init 10 10⟩,
          Except.error Elm.UsageError.notRunning) ∧
      ((Elm.Service.call
          ⟨Elm.ServiceLifecycle.idle, Elm.ServiceSt.init 10 10⟩ 1 1).1).st.queue =
        (Elm.ServiceSt.init 10 10).queue :=
  C6_call_not_running_usage_error
    ⟨Elm.ServiceLifecycle.idle, Elm.ServiceSt.init 10 10⟩ 1 1 (by decide)

/-- C7: for every Registry scope (any set of services, any start failures,
whether or not the protected block raised), `exit()` attempts stops exactly
in reverse start order, propagates the first stop exception encountered
while still attempting the remaining services, and — when the service names
are distinct — every service successfully started by `enter()` receives
exactly one stop attempt. -/
theorem C7_registry_teardown (svcs : Nat → Elm.LifecycleSvc)
    (names : List Nat) (blockRaised : Bool) (hnd : names.Nodup) :
    (Elm.runScope svcs names blockRaised).stopAttempts =
        (Elm.runScope svcs names blockRaised).started.reverse ∧
    (Elm.runScope svcs names blockRaised).stopErr =
        ((Elm.runScope svcs names blockRaised).stopAttempts.find?
          (fun i => !(svcs i).stopOk)) ∧
    (∀ i ∈ (Elm.runScope svcs names blockRaised).started,
      (Elm.runScope svcs names blockRaised).stopAttempts.count i = 1) := by
  have hstarted_nd : (Elm.startAll svcs names).1.Nodup :=
    hnd.sublist (Elm.startAll_sublist svcs names)
  refine ⟨?_, ?_, ?_⟩
  · exact Elm.stopEach_attempts_eq svcs _
  · show (Elm.stopEach svcs (Elm.startAll svcs names).1.reverse).2 =
        List.find? (fun i => !(svcs i).stopOk)
          (Elm.stopEach svcs (Elm.startAll svcs names).1.reverse).1
    rw [Elm.stopEach_attempts_eq]
    exact Elm.stopEach_err_eq_findFirst svcs _
  · intro i hi
    have hattempts :
        (Elm.runScope svcs names blockRaised).stopAttempts =
          (Elm.startAll svcs names).1.reverse :=
      Elm.stopEach_attempts_eq svcs _
    rw [hattempts, List.count_reverse]
    have hmem : i ∈ (Elm.startAll svcs names).1 := hi
    have hle := List.nodup_iff_count_le_one.mp hstarted_nd i
    have hpos := List.count_pos_iff.mpr hmem
    omega

/-- Witness for C7 — the spec's partial-start rollback scenario: of three
services, service 2's start routine fails; service 1 was started and still
receives exactly one stop attempt, in reverse start order, and its stop
error (none here) is the first encountered. -/
theorem C7_registry_teardown_witness :
    (Elm.runScope
        (fun i => if i = 2 then ⟨false, true⟩ else ⟨true, true⟩)
        [1, 2, 3] true).stopAttempts =
      (Elm.runScope
        (fun i => if i = 2 then ⟨false, true⟩ else ⟨true, true⟩)
        [1, 2, 3] true).started.reverse ∧
    (Elm.runScope
        (fun i => if i = 2 then ⟨false, true⟩ else ⟨true, true⟩)
        [1, 2, 3] true).stopErr =
      ((Elm.runScope
        (fun i => if i = 2 then ⟨false, true⟩ else ⟨true, true⟩)
        [1, 2, 3] true).stopAttempts.find?
          (fun i => !((fun i => if i = 2 then
            (⟨false, true⟩ : Elm.LifecycleSvc) else ⟨true, true⟩) i).stopOk)) ∧
    (∀ i ∈ (Elm.runScope
        (fun i => if i = 2 then ⟨false, true⟩ else ⟨true, true⟩)
        [1, 2, 3] true).started,
      (Elm.runScope
        (fun i => if i = 2 then ⟨false, true⟩ else ⟨true, true⟩)
        [1, 2, 3] true).stopAttempts.count i = 1) :=
  C7_registry_teardown
    (fun i => if i = 2 then ⟨false, true⟩ else ⟨true, true⟩)
    [1, 2, 3] true (by decide)

/-- C8: a call cancelled while its work item is still queued (not yet
dispatched) never reaches the backend — its id never enters the dispatch
list — and its result slot resolves to a cancellation error, which is
distinct from `FailedCallError`. -/
theorem C8_cancel_before_dispatch (W L : Nat) (es1 es2 : List Elm.Event)
    (id : Nat)
    (hq : id ∈ ((Elm.ServiceSt.init W L).run es1).queue.map Elm.WorkItem.id) :
    id ∉ ((Elm.ServiceSt.init W L).run
        (es1 ++ Elm.Event.cancel id :: es2)).dispatched ∧
    ((Elm.ServiceSt.init W L).run
        (es1 ++ Elm.Event.cancel id :: es2)).results id =
      some Elm.CallResult.cancelled ∧
    Elm.CallResult.cancelled ≠ Elm.CallResult.failedCall := by
  have hsplit :
      (Elm.ServiceSt.init W L).run (es1 ++ Elm.Event.cancel id :: es2) =
        ((((Elm.ServiceSt.init W L).run es1).step
            (Elm.Event.cancel id)).run es2) := by
    simp [Elm.ServiceSt.run, List.foldl_append]
  set s1 := (Elm.ServiceSt.init W L).run es1 with hs1
  have hcancel : (s1.step (Elm.Event.cancel id)).results id =
      some Elm.CallResult.cancelled := by
    simp only [Elm.ServiceSt.step, if_pos hq, if_true]
  have hres : ((s1.step (Elm.Event.cancel id)).run es2).results id =
      some Elm.CallResult.cancelled :=
    Elm.cancelled_persists es2 id hcancel
  have hinv : Elm.ServiceInv ((s1.step (Elm.Event.cancel id)).run es2) := by
    have h1 : Elm.ServiceInv s1 :=
      Elm.serviceInv_run es1 (Elm.serviceInv_init W L)
    exact Elm.serviceInv_run es2 (Elm.serviceInv_step h1 _)
  rw [hsplit]
  exact ⟨(hinv.cancelledQuiet id hres).1, hres, by decide⟩

/-- Witness for C8: item 7 is enqueued, cancelled while queued, then the
admission loop ticks; the backend is never invoked for it and its slot
holds the cancellation error. -/
theorem C8_cancel_before_dispatch_witness :
    7 ∉ ((Elm.ServiceSt.init 10 10).run
        ([Elm.Event.enqueue 7 1] ++ Elm.Event.cancel 7 ::
          [Elm.Event.tick 0])).dispatched ∧
    ((Elm.ServiceSt.init 10 10).run
        ([Elm.Event.enqueue 7 1] ++ Elm.Event.cancel 7 ::
          [Elm.Event.tick 0])).results 7 = some Elm.CallResult.cancelled ∧
    Elm.CallResult.cancelled ≠ Elm.CallResult.failedCall :=
  C8_cancel_before_dispatch 10 10 [Elm.Event.enqueue 7 1] [Elm.Event.tick 0] 7
    (by decide)

/-- C9: two traversal runs over the same graph definition, interleaved
under an arbitrary schedule, are exactly the two solo runs: each run's
state (current node, visited list, TraversalState, result) is a function
of its own responder and its own step count alone, and the graph — passed
read-only to every step — is never changed by either run.  Runs never
share or interleave their traversal state. -/
theorem C9_interleaved_runs_independent (g : Elm.DecisionGraph)
    (rA rB : String → String) (sched : List Bool)
    (a0 b0 : Elm.RunState) :
    Elm.runPair g rA rB (a0, b0) sched =
      (Elm.iterRun g rA (sched.count true) a0,
       Elm.iterRun g rB (sched.count false) b0) := by
  induction sched generalizing a0 b0 with
  | nil => simp [Elm.runPair, Elm.iterRun]
  | cons x sched ih =>
    cases x
    · show Elm.runPair g rA rB (a0, Elm.stepRun g rB b0) sched = _
      rw [ih]
      simp [List.count_cons, Elm.iterRun]
    · show Elm.runPair g rA rB (Elm.stepRun g rA a0, b0) sched = _
      rw [ih]
      simp [List.count_cons, Elm.iterRun]

/-- C10: the value the OpenAI-backed service delivers back to the caller
is always a string whenever the backend response is absent or carries at
least one choice; in particular a missing response (`None`) delivers the
empty string — not `None` and not an exception. -/
theorem C10_parse_delivers_string (r : Option Elm.ChatResponse)
    (hwf : ∀ resp, r = some resp → resp.choices ≠ []) :
    (Elm.parse_response_to_str r).isOk = true ∧
      Elm.parse_response_to_str none = Except.ok "" := by
  refine ⟨?_, rfl⟩
  cases r with
  | none => rfl
  | some resp =>
    rcases hc : resp.choices with _ | ⟨c, rest⟩
    · exact absurd hc (hwf resp rfl)
    · simp [Elm.parse_response_to_str, hc, Except.isOk, Except.toBool]

/-- Witness for C10: the backend yields no response. -/
theorem C10_parse_delivers_string_witness :
    (Elm.parse_response_to_str none).isOk = true ∧
      Elm.parse_response_to_str none = Except.ok "" :=
  C10_parse_delivers_string none (fun _ h => Option.noConfusion h)
